import Mathlib

/-!
# WORDLE-Game: the guess evaluator, the turn state machine, hints and statistics

A shallow embedding of `src/index.js`.

* Strings are lists of characters (`Word`); the empty string of a grid cell is `[]`.
* `null` entries of the letter arrays of `computeGuessResult` are `none`.
* `realDictionary` is imported from `dictionary.js`: it is a parameter `dict` of every
  definition that reads it.
* `Math.floor(Math.random() * n)` is a parameter `u`, used as the index `u % n`.
* The DOM (boxes, notifications, keyboard colours, the modal) is not part of the state.
-/

namespace Wordle

/-- A string, as the list of its characters. -/
abbrev Word := List Char

/-- Class given to a revealed box: the strings "right", "wrong" and "empty" of
`computeGuessResult`. -/
inductive Mark where
  | right
  | wrong
  | empty
deriving DecidableEq, Repr

/-- An entry of `secretLetters` / `guessLetters`: a letter, or `none` for `null`. -/
abbrev Slot := Option Char

/-- The call `secretLetters.indexOf(c)` for a letter `c`: the first index holding `c`,
`none` standing for the result `-1`. -/
def indexOf : List Slot → Char → Option Nat
  | [], _ => none
  | x :: xs, c => if x = some c then some 0 else (indexOf xs c).map (· + 1)

/-- Local variables of `computeGuessResult`. The array `result` starts empty and is only
written at the indices 0..4: it is kept as five entries, `none` for an index not written yet. -/
structure EvalState where
  result : List (Option Mark)
  secretLetters : List Slot
  guessLetters : List Slot
deriving DecidableEq, Repr

/-- Body of the first loop of `computeGuessResult` at index `i`. -/
def pass1Step (st : EvalState) (i : Nat) : EvalState :=
  if st.guessLetters[i]? = st.secretLetters[i]? then
    { result := st.result.set i (some Mark.right)
      secretLetters := st.secretLetters.set i none
      guessLetters := st.guessLetters.set i none }
  else st

/-- Body of the second loop of `computeGuessResult` at index `i`. An index outside the
array reads `undefined`, which is not `null` and which `indexOf` does not find. -/
def pass2Step (st : EvalState) (i : Nat) : EvalState :=
  match st.guessLetters[i]? with
  | some none => st
  | some (some c) =>
    match indexOf st.secretLetters c with
    | some indexInSecret =>
      { st with
        result := st.result.set i (some Mark.wrong)
        secretLetters := st.secretLetters.set indexInSecret none }
    | none => { st with result := st.result.set i (some Mark.empty) }
  | none => { st with result := st.result.set i (some Mark.empty) }

/-- The function `computeGuessResult(guess, secret)`: both loops run over `i = 0..4`.
The model agrees with the source on words of five letters, the contract of its callers
(on shorter words the source extends the arrays when writing, `List.set` does not). -/
def computeGuessResult (guess secret : Word) : List (Option Mark) :=
  let st0 : EvalState :=
    { result := List.replicate 5 none
      secretLetters := secret.map some
      guessLetters := guess.map some }
  let st1 := (List.range 5).foldl pass1Step st0
  let st2 := (List.range 5).foldl pass2Step st1
  st2.result

/-- The array `secretLetters` as the first loop leaves it: `null` at the exact matches. -/
def secretAfterPass1 : Word → Word → List Slot
  | g :: gs, s :: ss => (if g = s then none else some s) :: secretAfterPass1 gs ss
  | _, _ => []

/-- Position by position reading of the two loops: an exact match is `right`; any other
letter takes the first occurrence still left in `sec` (`wrong`) or finds none (`empty`). -/
def scan : Word → Word → List Slot → List (Option Mark)
  | g :: gs, s :: ss, sec =>
    if g = s then some Mark.right :: scan gs ss sec
    else
      match indexOf sec g with
      | some k => some Mark.wrong :: scan gs ss (sec.set k none)
      | none => some Mark.empty :: scan gs ss sec
  | _, _, _ => []

/-- The array `guessLetters` as the first loop leaves it. -/
def guessAfterPass1 : Word → Word → List Slot
  | g :: gs, s :: ss => (if g = s then none else some g) :: guessAfterPass1 gs ss
  | _, _ => []

/-- The array `result` as the first loop leaves it. -/
def resultAfterPass1 : Word → Word → List (Option Mark)
  | g :: gs, s :: ss => (if g = s then some Mark.right else none) :: resultAfterPass1 gs ss
  | _, _ => []

/-- The second loop read along the arrays: a `null` guess entry keeps the mark it has. -/
def scanSlots : List Slot → List (Option Mark) → List Slot → List (Option Mark)
  | none :: xs, r :: rs, sec => r :: scanSlots xs rs sec
  | some c :: xs, _ :: rs, sec =>
    match indexOf sec c with
    | some k => some Mark.wrong :: scanSlots xs rs (sec.set k none)
    | none => some Mark.empty :: scanSlots xs rs sec
  | _, _, _ => []


/-- Number of positions `i` with `G[i] = l` whose mark in `res` is `right` or `wrong`. -/
def markedCount (l : Char) (G : Word) (res : List (Option Mark)) : Nat :=
  (G.zip res).countP fun p =>
    decide (p.1 = l) && (decide (p.2 = some Mark.right) || decide (p.2 = some Mark.wrong))

/-- Number of positions where guess and secret both hold `l`. -/
def exactCount (l : Char) (G S : Word) : Nat :=
  (G.zip S).countP fun p => decide (p.1 = l) && decide (p.1 = p.2)

/-- Number of positions where the guess holds `l` and the secret another letter. -/
def looseCount (l : Char) (G S : Word) : Nat :=
  (G.zip S).countP fun p => decide (p.1 = l) && !decide (p.1 = p.2)

/-! ### Statistics -/

/-- The record `stats`. Its counters are JavaScript numbers (IEEE 754 doubles); this record
holds the ones that are non-negative integers. `guessDistribution` maps a key to its count;
the record holds the keys 1..6 only, and only those keys are read or written below. -/
structure Stats where
  gamesPlayed : Nat
  wins : Nat
  currentStreak : Nat
  maxStreak : Nat
  guessDistribution : Nat → Nat

/-- The constant `defaultStats` of `loadStats`. -/
def defaultStats : Stats :=
  { gamesPlayed := 0, wins := 0, currentStreak := 0, maxStreak := 0
    guessDistribution := fun _ => 0 }

/-- The operation `x++` on a double holding the non-negative integer `x`: the sum `x + 1`
rounded to the nearest double, ties to the even mantissa. Below 2^53 the sum is exact. From
2^53 to 2^54 the doubles are 2 apart and `x + 1` lies halfway between `x` and `x + 2`: the
one with the even mantissa `x / 2` or `x / 2 + 1` is taken. From 2^54 on the doubles are at
least 4 apart and the sum rounds back to `x`. -/
def jsIncr (x : Nat) : Nat :=
  if x < 2 ^ 53 then x + 1
  else if x < 2 ^ 54 then (if (x / 2) % 2 = 0 then x else x + 2)
  else x

/-- The function `updateStats(isWin)`; `currentRow` is `state.currentRow` at the call.
The call to `saveStats` only writes to the storage. With `currentRow` in 0..5 the key
`currentRow + 1` is one of 1..6; for any other key the source stores `NaN`, which this
record does not hold. -/
def updateStats (stats : Stats) (currentRow : Nat) (isWin : Bool) : Stats :=
  let stats := { stats with gamesPlayed := jsIncr stats.gamesPlayed }
  if isWin then
    let stats := { stats with wins := jsIncr stats.wins }
    let stats := { stats with currentStreak := jsIncr stats.currentStreak }
    let stats :=
      if stats.currentStreak > stats.maxStreak then
        { stats with maxStreak := stats.currentStreak }
      else stats
    { stats with
      guessDistribution := fun k =>
        if k = currentRow + 1 then jsIncr (stats.guessDistribution k)
        else stats.guessDistribution k }
  else
    { stats with currentStreak := 0 }

/-- Sum of `guessDistribution` over its keys 1..6. -/
def distributionSum (stats : Stats) : Nat :=
  ((List.range 6).map fun k => stats.guessDistribution (k + 1)).sum

/-- The invariant the data model states for a stats record. -/
def StatsInv (stats : Stats) : Prop :=
  stats.wins ≤ stats.gamesPlayed ∧ stats.currentStreak ≤ stats.maxStreak ∧
    distributionSum stats ≤ stats.wins

/-! ### The session state -/

/-- The constant `MAX_HINTS`. -/
def MAX_HINTS : Nat := 2

/-- The object `state`. A grid cell is a string: empty, or one letter. `secret` is `none`
when the word list is empty (`realDictionary[0]` is `undefined`). -/
structure State where
  secret : Option Word
  grid : List (List Word)
  currentRow : Nat
  currentCol : Nat
  hintsUsed : Nat
  isGameOver : Bool
deriving DecidableEq, Repr

/-- The expression `realDictionary[Math.floor(Math.random() * realDictionary.length)]`,
`u` deciding the random draw. -/
def pickSecret (dict : List Word) (u : Nat) : Option Word :=
  dict[u % dict.length]?

/-- The grid of six rows of five empty strings. -/
def emptyGrid : List (List Word) :=
  List.replicate 6 (List.replicate 5 [])

/-- The initial value of `state`. -/
def initialState (dict : List Word) (u : Nat) : State :=
  { secret := pickSecret dict u, grid := emptyGrid, currentRow := 0, currentCol := 0
    hintsUsed := 0, isGameOver := false }

/-- The function `getCurrentWord()`; `none` when `state.grid[state.currentRow]` is
`undefined` and the call throws. -/
def getCurrentWord (st : State) : Option Word :=
  (st.grid[st.currentRow]?).map fun row => row.foldl (fun prev curr => prev ++ curr) []

/-- The function `isWordValid(word)`: `dictionary` is the set of the words of
`realDictionary`. -/
def isWordValid (dict : List Word) (word : Word) : Bool :=
  decide (word ∈ dict)

/-- The function `isLetter(key)`: one character, matching `/[a-z]/i`. -/
def isLetter (key : Word) : Bool :=
  key.length == 1 && key.any Char.isAlpha

/-- The function `addLetter(letter)`. When the current row does not exist the assignment
throws before anything is written. Columns are 0..4, so the write stays inside the row. -/
def addLetter (st : State) (letter : Word) : State :=
  if st.currentCol = 5 then st
  else
    match st.grid[st.currentRow]? with
    | none => st
    | some row =>
      { st with
        grid := st.grid.set st.currentRow (row.set st.currentCol (letter.map Char.toLower))
        currentCol := st.currentCol + 1 }

/-- The function `removeLetter()`. -/
def removeLetter (st : State) : State :=
  if st.currentCol = 0 then st
  else
    match st.grid[st.currentRow]? with
    | none => st
    | some row =>
      { st with
        grid := st.grid.set st.currentRow (row.set (st.currentCol - 1) [])
        currentCol := st.currentCol - 1 }

/-- The test `cell !== secret[i]` of `useHint`: the cell is a string or `undefined`
(`none`), `secret[i]` a one-letter string or `undefined` (`none`). -/
def strictNe (cell : Option Word) (letter : Option Char) : Bool :=
  match cell, letter with
  | none, none => false
  | some w, some c => w != [c]
  | _, _ => true

/-- The array `unrevealedIndices` of `useHint` for a row and a secret. -/
def unrevealedIndices (row : List Word) (secret : Word) : List Nat :=
  (List.range 5).filter fun i => strictNe row[i]? secret[i]?

/-- The function `useHint()`, `u` deciding the random draw. When the current row or the
secret is `undefined` the first comparison throws before anything is written. The secret is
a word of five letters, so `secret[randomIndex]` is a letter. -/
def useHint (u : Nat) (st : State) : State :=
  if st.hintsUsed ≥ MAX_HINTS || st.isGameOver then st
  else
    match st.grid[st.currentRow]?, st.secret with
    | some row, some secret =>
      let unrevealed := unrevealedIndices row secret
      if unrevealed.length = 0 then st
      else
        match unrevealed[u % unrevealed.length]? with
        | none => st
        | some randomIndex =>
          { st with
            grid := st.grid.set st.currentRow (row.set randomIndex (secret[randomIndex]?).toList)
            hintsUsed := st.hintsUsed + 1 }
    | _, _ => st

/-- The function `restartGame()` on `state`, `u` deciding the random draw. -/
def restartGame (dict : List Word) (u : Nat) (st : State) : State :=
  { st with
    secret := pickSecret dict u, grid := emptyGrid, currentRow := 0, currentCol := 0
    hintsUsed := 0, isGameOver := false }

/-! ### Submission and the reveal timer -/

/-- What the timer callback of `revealWord` keeps from the call that sets it. -/
structure Reveal where
  guess : Word
  results : List (Option Mark)
  isWinner : Bool
  isGameOverOnThisTurn : Bool
deriving DecidableEq, Repr

/-- The program: `state`, `stats`, and the reveal timers that are set and have not fired,
in the order they fire (all have the same delay). `statsCalls` is not a variable of the
program: it records how many times `updateStats` has been called. -/
structure Sys where
  state : State
  stats : Stats
  pending : List Reveal
  statsCalls : Nat

/-- The function `revealWord(guess)` up to its return: the executor of the promise computes
the marks and the two flags and sets the timer. With an `undefined` secret
`computeGuessResult` throws, the promise is rejected and no timer is set. -/
def revealWord (guess : Word) (sys : Sys) : Sys :=
  match sys.state.secret with
  | none => sys
  | some secret =>
    { sys with
      pending := sys.pending ++
        [{ guess := guess
           results := computeGuessResult guess secret
           isWinner := decide (secret = guess)
           isGameOverOnThisTurn := decide (sys.state.currentRow = 5) }] }

/-- The function `submitGuess(word)` up to its `await`: the call of `revealWord`. -/
def submitGuess (word : Word) (sys : Sys) : Sys :=
  revealWord word sys

/-- The function `handleInput(key)`. The final `updateGrid()` only writes to the page. -/
def handleInput (dict : List Word) (key : Word) (sys : Sys) : Sys :=
  if sys.state.isGameOver then sys
  else if key = ['e', 'n', 't', 'e', 'r'] then
    if sys.state.currentCol = 5 then
      match getCurrentWord sys.state with
      | none => sys
      | some word => if isWordValid dict word then submitGuess word sys else sys
    else sys
  else if key = ['b', 'a', 'c', 'k', 's', 'p', 'a', 'c', 'e'] then
    { sys with state := removeLetter sys.state }
  else if isLetter key then
    { sys with state := addLetter sys.state key }
  else sys

/-- The timer callback of `revealWord`, up to `resolve()`. -/
def revealTimeout (r : Reveal) (sys : Sys) : Sys :=
  if r.isWinner then
    { sys with
      state := { sys.state with isGameOver := true }
      stats := updateStats sys.stats sys.state.currentRow true
      statsCalls := sys.statsCalls + 1 }
  else if r.isGameOverOnThisTurn then
    { sys with
      state := { sys.state with isGameOver := true }
      stats := updateStats sys.stats sys.state.currentRow false
      statsCalls := sys.statsCalls + 1 }
  else sys

/-- The rest of `submitGuess` after `await revealWord(word)`. -/
def submitGuessResume (sys : Sys) : Sys :=
  if !sys.state.isGameOver then
    { sys with state := { sys.state with currentRow := sys.state.currentRow + 1, currentCol := 0 } }
  else sys

/-- The oldest pending reveal timer fires: its callback runs, then the awaiting
`submitGuess` resumes, before any other event is handled. -/
def fireReveal (sys : Sys) : Sys :=
  match sys.pending with
  | [] => sys
  | r :: rest => submitGuessResume (revealTimeout r { sys with pending := rest })

/-- What can happen to the program after `startup()`. -/
inductive Event where
  | key (k : Word)
  | hint (u : Nat)
  | restart (u : Nat)
  | revealDone
deriving DecidableEq, Repr

/-- One event handled to completion. -/
def step (dict : List Word) (sys : Sys) : Event → Sys
  | Event.key k => handleInput dict k sys
  | Event.hint u => { sys with state := useHint u sys.state }
  | Event.restart u => { sys with state := restartGame dict u sys.state }
  | Event.revealDone => fireReveal sys

/-- A sequence of events handled one after the other. -/
def run (dict : List Word) (evs : List Event) (sys : Sys) : Sys :=
  evs.foldl (step dict) sys

/-- The program when the module has loaded: `u` decides the secret, `stats` is what
`loadStats()` returned. -/
def startup (dict : List Word) (u : Nat) (stats : Stats) : Sys :=
  { state := initialState dict u, stats := stats, pending := [], statsCalls := 0 }

/-! ### Loading the statistics -/

/-- A value `JSON.parse` can return. Numbers are taken as rationals. -/
inductive JsVal where
  | null
  | bool (b : Bool)
  | num (x : ℚ)
  | str (s : Word)
  | arr (items : List JsVal)
  | obj (fields : List (Word × JsVal))

/-- A stats record as a JavaScript object, its keys in the order of `defaultStats`. -/
def Stats.toJs (s : Stats) : JsVal :=
  JsVal.obj
    [("gamesPlayed".toList, JsVal.num s.gamesPlayed),
     ("wins".toList, JsVal.num s.wins),
     ("currentStreak".toList, JsVal.num s.currentStreak),
     ("maxStreak".toList, JsVal.num s.maxStreak),
     ("guessDistribution".toList,
       JsVal.obj ((List.range 6).map fun k =>
         ((Nat.repr (k + 1)).toList, JsVal.num (s.guessDistribution (k + 1)))))]

/-- The function `loadStats()`. `stored` is what `localStorage.getItem("wordle-stats")`
does: it throws (`error`), finds nothing (`null`, here `none`) or returns the stored text.
`parse` is `JSON.parse`, `none` when it throws a `SyntaxError`. The result is `ok v` when
`loadStats` returns `v` and `error` when it throws. -/
def loadStats (parse : Word → Option JsVal) (stored : Except Unit (Option Word)) :
    Except Unit JsVal :=
  let tryBlock : Except Unit JsVal :=
    match stored with
    | Except.error e => Except.error e
    | Except.ok none => Except.ok defaultStats.toJs
    | Except.ok (some statsJson) =>
      if statsJson ≠ [] then
        match parse statsJson with
        | some v => Except.ok v
        | none => Except.error ()
      else Except.ok defaultStats.toJs
  match tryBlock with
  | Except.ok v => Except.ok v
  | Except.error _ => Except.ok defaultStats.toJs

/-- The values of `JSON.parse` at three texts that are valid JSON and not a stats record:
"null", the empty object and the array of the number 1. No other text is looked up below. -/
def jsonParseSample (text : Word) : Option JsVal :=
  if text = ['n', 'u', 'l', 'l'] then some JsVal.null
  else if text = ['{', '}'] then some (JsVal.obj [])
  else if text = ['[', '1', ']'] then some (JsVal.arr [JsVal.num 1])
  else none

/-! ### Schedules -/

/-- At no time are two reveals pending: after each event of the list, handled in turn from
`sys`, at most one reveal timer is set and has not fired. -/
def OneRevealAtATime (dict : List Word) : List Event → Sys → Prop
  | [], _ => True
  | ev :: evs, sys =>
    (step dict sys ev).pending.length ≤ 1 ∧ OneRevealAtATime dict evs (step dict sys ev)

/-- Typing "apple", then Enter twice, then the two reveal timers. -/
def doubleEnter : List Event :=
  [Event.key ['a'], Event.key ['p'], Event.key ['p'], Event.key ['l'], Event.key ['e'],
   Event.key ['e', 'n', 't', 'e', 'r'], Event.key ['e', 'n', 't', 'e', 'r'],
   Event.revealDone, Event.revealDone]

/-- A sample program state: row 0 spells "apple", the secret is "mango", nothing pending. -/
def sampleSys : Sys :=
  { state :=
      { secret := some ['m', 'a', 'n', 'g', 'o']
        grid := [['a'], ['p'], ['p'], ['l'], ['e']] :: List.replicate 5 (List.replicate 5 [])
        currentRow := 0, currentCol := 5, hintsUsed := 0, isGameOver := false }
    stats := defaultStats, pending := [], statsCalls := 0 }

/-- A sample word list. -/
def sampleDict : List Word :=
  [['a', 'p', 'p', 'l', 'e'], ['m', 'a', 'n', 'g', 'o']]

/-- What holds of a session that started with `c0` calls of `updateStats` made and the
record `stats0`, as long as no two reveals are pending at once: at most one reveal is
pending, and only while the game is not over; `updateStats` has been called once more if the
game is over and not at all otherwise, in which case the record is still `stats0`. -/
def SessionInv (c0 : Nat) (stats0 : Stats) (sys : Sys) : Prop :=
  sys.pending.length ≤ 1 ∧ (sys.pending ≠ [] → sys.state.isGameOver = false) ∧
    sys.statsCalls = c0 + (if sys.state.isGameOver then 1 else 0) ∧
    (sys.state.isGameOver = false → sys.stats = stats0)

/-- Typing "apple" with the secret "apple", Enter, a backspace while the reveal is pending,
then the reveal timer. -/
def quietWin : List Event :=
  [Event.key ['a'], Event.key ['p'], Event.key ['p'], Event.key ['l'], Event.key ['e'],
   Event.key ['e', 'n', 't', 'e', 'r'], Event.key ['b', 'a', 'c', 'k', 's', 'p', 'a', 'c', 'e'],
   Event.revealDone]

/-- A stats record whose counters have reached 2^53: that many games, all won, half of them
in one guess and half in two. -/
def saturatedStats : Stats :=
  { gamesPlayed := 2 ^ 53, wins := 2 ^ 53, currentStreak := 0, maxStreak := 0
    guessDistribution := fun k => if k = 1 ∨ k = 2 then 2 ^ 52 else 0 }

/-! ## Theorems -/

theorem range_five : List.range 5 = [0, 1, 2, 3, 4] := by decide

theorem pass1_fold (g0 g1 g2 g3 g4 s0 s1 s2 s3 s4 : Char) :
    List.foldl pass1Step
        { result := List.replicate 5 none
          secretLetters := List.map some [s0, s1, s2, s3, s4]
          guessLetters := List.map some [g0, g1, g2, g3, g4] } (List.range 5) =
      { result := resultAfterPass1 [g0, g1, g2, g3, g4] [s0, s1, s2, s3, s4]
        secretLetters := secretAfterPass1 [g0, g1, g2, g3, g4] [s0, s1, s2, s3, s4]
        guessLetters := guessAfterPass1 [g0, g1, g2, g3, g4] [s0, s1, s2, s3, s4] } := by
  simp only [range_five, List.foldl, List.map, List.replicate]
  by_cases h0 : g0 = s0 <;> by_cases h1 : g1 = s1 <;> by_cases h2 : g2 = s2 <;>
    by_cases h3 : g3 = s3 <;> by_cases h4 : g4 = s4 <;>
    simp [pass1Step, resultAfterPass1, secretAfterPass1, guessAfterPass1, h0, h1, h2, h3, h4]

theorem pass2Step_at (xpre : List Slot) (x : Slot) (xs : List Slot)
    (rpre : List (Option Mark)) (r : Option Mark) (rs : List (Option Mark))
    (sec : List Slot) (hlen : rpre.length = xpre.length) :
    pass2Step { result := rpre ++ r :: rs, secretLetters := sec,
                guessLetters := xpre ++ x :: xs } xpre.length =
      match x with
      | none => { result := rpre ++ r :: rs, secretLetters := sec,
                  guessLetters := xpre ++ x :: xs }
      | some c =>
        match indexOf sec c with
        | some k => { result := rpre ++ some Mark.wrong :: rs, secretLetters := sec.set k none,
                      guessLetters := xpre ++ x :: xs }
        | none => { result := rpre ++ some Mark.empty :: rs, secretLetters := sec,
                    guessLetters := xpre ++ x :: xs } := by
  have hget : (xpre ++ x :: xs)[xpre.length]? = some x := by
    rw [List.getElem?_append_right (le_refl _)]
    simp
  have hset : ∀ m : Option Mark, (rpre ++ r :: rs).set xpre.length m = rpre ++ m :: rs := by
    intro m
    rw [← hlen]
    simp
  cases x with
  | none => simp [pass2Step, hget]
  | some c =>
    simp only [pass2Step, hget, hset]

theorem pass2_fold_aux (xs : List Slot) :
    ∀ (rs : List (Option Mark)) (xpre : List Slot) (rpre : List (Option Mark))
      (sec : List Slot), rpre.length = xpre.length → rs.length = xs.length →
      (List.foldl pass2Step
          { result := rpre ++ rs, secretLetters := sec, guessLetters := xpre ++ xs }
          (List.range' xpre.length xs.length)).result = rpre ++ scanSlots xs rs sec := by
  induction xs with
  | nil =>
    intro rs xpre rpre sec _ hrs
    cases rs with
    | nil => simp [scanSlots]
    | cons r rs => simp at hrs
  | cons x xs ih =>
    intro rs xpre rpre sec hpre hrs
    cases rs with
    | nil => simp at hrs
    | cons r rs =>
      have hrs1 : rs.length = xs.length := by simpa using hrs
      have hpre1 : (rpre ++ [r]).length = (xpre ++ [x]).length := by simp [hpre]
      simp only [List.length_cons, List.range'_succ, List.foldl_cons]
      rw [pass2Step_at xpre x xs rpre r rs sec hpre]
      cases x with
      | none =>
        have h := ih rs (xpre ++ [none]) (rpre ++ [r]) sec hpre1 hrs1
        simp only [List.append_assoc, List.singleton_append, List.length_append,
          List.length_singleton] at h
        simp only [scanSlots, h]
      | some c =>
        cases hidx : indexOf sec c with
        | none =>
          have h := ih rs (xpre ++ [some c]) (rpre ++ [some Mark.empty]) sec
            (by simp [hpre]) hrs1
          simp only [List.append_assoc, List.singleton_append, List.length_append,
            List.length_singleton] at h
          simp only [scanSlots, hidx, h]
        | some k =>
          have h := ih rs (xpre ++ [some c]) (rpre ++ [some Mark.wrong]) (sec.set k none)
            (by simp [hpre]) hrs1
          simp only [List.append_assoc, List.singleton_append, List.length_append,
            List.length_singleton] at h
          simp only [scanSlots, hidx, h]

theorem pass2_fold (xs : List Slot) (rs : List (Option Mark)) (sec : List Slot)
    (hlen : rs.length = xs.length) (h5 : xs.length = 5) :
    (List.foldl pass2Step { result := rs, secretLetters := sec, guessLetters := xs }
        (List.range 5)).result = scanSlots xs rs sec := by
  have h := pass2_fold_aux xs rs [] [] sec rfl hlen
  simpa [h5, List.range_eq_range'] using h

theorem scanSlots_afterPass1 (G : Word) :
    ∀ (S : Word) (sec : List Slot),
      scanSlots (guessAfterPass1 G S) (resultAfterPass1 G S) sec = scan G S sec := by
  induction G with
  | nil => intro S sec; simp [guessAfterPass1, resultAfterPass1, scanSlots, scan]
  | cons g gs ih =>
    intro S sec
    cases S with
    | nil => simp [guessAfterPass1, resultAfterPass1, scanSlots, scan]
    | cons s ss =>
      by_cases h : g = s
      · simp [guessAfterPass1, resultAfterPass1, scanSlots, scan, h, ih]
      · simp only [guessAfterPass1, resultAfterPass1, scanSlots, scan, h, if_false]
        cases indexOf sec g <;> simp [ih]

theorem length_eq_five {α : Type} (xs : List α) (h : xs.length = 5) :
    ∃ a b c d e, xs = [a, b, c, d, e] := by
  match xs, h with
  | [a, b, c, d, e], _ => exact ⟨a, b, c, d, e, rfl⟩

/-- On five-letter words `computeGuessResult` is the position by position reading `scan`
started from the secret letters the first loop leaves. -/
theorem computeGuessResult_eq_scan (G S : Word) (hG : G.length = 5) (hS : S.length = 5) :
    computeGuessResult G S = scan G S (secretAfterPass1 G S) := by
  obtain ⟨g0, g1, g2, g3, g4, rfl⟩ := length_eq_five G hG
  obtain ⟨s0, s1, s2, s3, s4, rfl⟩ := length_eq_five S hS
  unfold computeGuessResult
  simp only []
  rw [pass1_fold, pass2_fold _ _ _ (by simp [resultAfterPass1, guessAfterPass1])
    (by simp [guessAfterPass1]), scanSlots_afterPass1]

theorem indexOf_none (sec : List Slot) (c : Char) (h : indexOf sec c = none) :
    sec.count (some c) = 0 := by
  induction sec with
  | nil => simp
  | cons x xs ih =>
    by_cases hx : x = some c
    · simp [indexOf, hx] at h
    · simp only [indexOf, hx, if_false, Option.map_eq_none'] at h
      rw [List.count_cons, ih h]
      simp [hx]

theorem indexOf_some (sec : List Slot) (c : Char) :
    ∀ k, indexOf sec c = some k →
      1 ≤ sec.count (some c) ∧
        ∀ l, (sec.set k none).count (some l) + (if c = l then 1 else 0) =
          sec.count (some l) := by
  induction sec with
  | nil => intro k h; simp [indexOf] at h
  | cons x xs ih =>
    intro k h
    by_cases hx : x = some c
    · simp only [indexOf, hx, if_true, Option.some.injEq] at h
      subst h
      subst hx
      refine ⟨by simp, fun l => ?_⟩
      by_cases hl : c = l
      · subst hl; simp [List.count_cons]
      · simp [List.count_cons, hl]
    · simp only [indexOf, hx, if_false, Option.map_eq_some'] at h
      obtain ⟨k', hk', rfl⟩ := h
      obtain ⟨h1, h2⟩ := ih k' hk'
      refine ⟨?_, fun l => ?_⟩
      · rw [List.count_cons]; omega
      · have := h2 l
        simp only [List.set_cons_succ, List.count_cons]
        omega

/-- The marks of `scan`: exact matches, plus as many of the other occurrences of `l` in the
guess as `sec` still holds. -/
theorem scan_markedCount (l : Char) (G : Word) :
    ∀ (S : Word) (sec : List Slot),
      markedCount l G (scan G S sec) =
        exactCount l G S + min (looseCount l G S) (sec.count (some l)) := by
  induction G with
  | nil => intro S sec; simp [markedCount, exactCount, looseCount, scan]
  | cons g gs ih =>
    intro S sec
    cases S with
    | nil => simp [markedCount, exactCount, looseCount, scan]
    | cons s ss =>
      by_cases h : g = s
      · have := ih ss sec
        subst h
        simp only [markedCount, exactCount, looseCount] at this ⊢
        by_cases hl : g = l <;>
          (simp [scan, List.countP_cons, hl, this]; try omega)
      · simp only [scan, h, if_false]
        cases hidx : indexOf sec g with
        | none =>
          have h0 := indexOf_none sec g hidx
          have := ih ss sec
          simp only [markedCount, exactCount, looseCount] at this ⊢
          by_cases hl : g = l
          · subst hl
            simp [List.countP_cons, h, this, h0]
          · simp [List.countP_cons, h, hl, this]
        | some k =>
          obtain ⟨h1, h2⟩ := indexOf_some sec g k hidx
          have h2l := h2 l
          have := ih ss (sec.set k none)
          simp only [markedCount, exactCount, looseCount] at this ⊢
          by_cases hl : g = l
          · subst hl
            simp only [if_true] at h2l
            simp [List.countP_cons, h, this]
            omega
          · simp only [hl, if_false, Nat.add_zero] at h2l
            simp [List.countP_cons, h, hl, this, h2l]

theorem secretAfterPass1_count (l : Char) (G : Word) :
    ∀ S : Word, G.length = S.length →
      (secretAfterPass1 G S).count (some l) + exactCount l G S = S.count l := by
  induction G with
  | nil =>
    intro S h
    cases S with
    | nil => simp [secretAfterPass1, exactCount]
    | cons s ss => simp at h
  | cons g gs ih =>
    intro S h
    cases S with
    | nil => simp at h
    | cons s ss =>
      have := ih ss (by simpa using h)
      simp only [exactCount] at this ⊢
      by_cases hgs : g = s
      · subst hgs
        by_cases hl : g = l
        · subst hl
          simp [secretAfterPass1, List.countP_cons, List.count_cons]
          omega
        · simp [secretAfterPass1, List.countP_cons, List.count_cons, hl]
          omega
      · by_cases hl : s = l
        · subst hl
          simp [secretAfterPass1, List.countP_cons, List.count_cons, hgs]
          omega
        · simp [secretAfterPass1, List.countP_cons, List.count_cons, hgs, hl]
          omega

theorem exact_add_loose (l : Char) (G : Word) :
    ∀ S : Word, G.length = S.length →
      exactCount l G S + looseCount l G S = G.count l := by
  induction G with
  | nil => intro S _; simp [exactCount, looseCount]
  | cons g gs ih =>
    intro S h
    cases S with
    | nil => simp at h
    | cons s ss =>
      have := ih ss (by simpa using h)
      simp only [exactCount, looseCount] at this ⊢
      by_cases hgs : g = s
      · subst hgs
        by_cases hl : g = l
        · subst hl
          simp [List.countP_cons, List.count_cons]
          omega
        · simp [List.countP_cons, List.count_cons, hl]
          omega
      · by_cases hl : g = l
        · subst hl
          simp [List.countP_cons, List.count_cons, hgs]
          omega
        · simp [List.countP_cons, List.count_cons, hgs, hl]
          omega

/-- The letter-count law in its exact form, shared by the claims on letter counts. -/
theorem markedCount_eq_min (l : Char) (G S : Word) (hG : G.length = 5) (hS : S.length = 5) :
    markedCount l G (computeGuessResult G S) = min (G.count l) (S.count l) := by
  have h1 := secretAfterPass1_count l G S (by omega)
  have h2 := exact_add_loose l G S (by omega)
  rw [computeGuessResult_eq_scan G S hG hS, scan_markedCount]
  omega

theorem scan_right_iff (G : Word) :
    ∀ (S : Word) (sec : List Slot) (i : Nat), i < G.length → i < S.length →
      ((scan G S sec)[i]? = some (some Mark.right) ↔ G[i]? = S[i]?) := by
  induction G with
  | nil => intro S sec i hi; simp at hi
  | cons g gs ih =>
    intro S sec i hi hi'
    cases S with
    | nil => simp at hi'
    | cons s ss =>
      cases i with
      | zero =>
        by_cases h : g = s
        · simp [scan, h]
        · simp only [scan, h, if_false]
          cases indexOf sec g <;> simp [h]
      | succ i =>
        have hi1 : i < gs.length := by simpa using hi
        have hi2 : i < ss.length := by simpa using hi'
        by_cases h : g = s
        · simpa [scan, h] using ih ss sec i hi1 hi2
        · simp only [scan, h, if_false]
          cases indexOf sec g with
          | none => simpa using ih ss sec i hi1 hi2
          | some k => simpa using ih ss (sec.set k none) i hi1 hi2

theorem scan_wrong_or_empty (G : Word) :
    ∀ (S : Word) (sec : List Slot) (i : Nat), i < G.length → i < S.length →
      G[i]? ≠ S[i]? →
      (scan G S sec)[i]? = some (some Mark.wrong) ∨
        (scan G S sec)[i]? = some (some Mark.empty) := by
  induction G with
  | nil => intro S sec i hi; simp at hi
  | cons g gs ih =>
    intro S sec i hi hi' hne
    cases S with
    | nil => simp at hi'
    | cons s ss =>
      cases i with
      | zero =>
        have h : g ≠ s := by simpa using hne
        simp only [scan, h, if_false]
        cases indexOf sec g <;> simp
      | succ i =>
        have hi1 : i < gs.length := by simpa using hi
        have hi2 : i < ss.length := by simpa using hi'
        have hne1 : gs[i]? ≠ ss[i]? := by simpa using hne
        by_cases h : g = s
        · simpa [scan, h] using ih ss sec i hi1 hi2 hne1
        · simp only [scan, h, if_false]
          cases indexOf sec g with
          | none => simpa using ih ss sec i hi1 hi2 hne1
          | some k => simpa using ih ss (sec.set k none) i hi1 hi2 hne1

/-- Once `sec` holds no `l`, no later occurrence of `l` in the guess is marked `wrong`. -/
theorem scan_not_wrong (l : Char) (G : Word) :
    ∀ (S : Word) (sec : List Slot) (j : Nat), sec.count (some l) = 0 →
      G[j]? = some l → (scan G S sec)[j]? ≠ some (some Mark.wrong) := by
  induction G with
  | nil => intro S sec j _ hj; simp at hj
  | cons g gs ih =>
    intro S sec j h0 hj
    cases S with
    | nil => simp [scan]
    | cons s ss =>
      by_cases h : g = s
      · cases j with
        | zero => simp [scan, h]
        | succ j =>
          have hj1 : gs[j]? = some l := by simpa using hj
          simpa [scan, h] using ih ss sec j h0 hj1
      · simp only [scan, h, if_false]
        cases hidx : indexOf sec g with
        | none =>
          cases j with
          | zero => simp
          | succ j =>
            have hj1 : gs[j]? = some l := by simpa using hj
            simpa using ih ss sec j h0 hj1
        | some k =>
          obtain ⟨h1, h2⟩ := indexOf_some sec g k hidx
          have h2l := h2 l
          cases j with
          | zero =>
            have hg : g = l := by simpa using hj
            subst hg
            omega
          | succ j =>
            have hj1 : gs[j]? = some l := by simpa using hj
            have h0' : (sec.set k none).count (some l) = 0 := by omega
            simpa using ih ss (sec.set k none) j h0' hj1

/-- Among the occurrences of `l` that are not exact matches, a `wrong` mark on a later one
forces a `wrong` mark on every earlier one. -/
theorem scan_leftmost (l : Char) (G : Word) :
    ∀ (S : Word) (sec : List Slot) (i j : Nat), i < j →
      G[i]? = some l → G[j]? = some l → S[i]? ≠ some l →
      (scan G S sec)[j]? = some (some Mark.wrong) →
      (scan G S sec)[i]? = some (some Mark.wrong) := by
  induction G with
  | nil => intro S sec i j _ hi; simp at hi
  | cons g gs ih =>
    intro S sec i j hij hi hj hne hw
    cases S with
    | nil => simp [scan] at hw
    | cons s ss =>
      cases j with
      | zero => omega
      | succ j =>
        have hj1 : gs[j]? = some l := by simpa using hj
        cases i with
        | zero =>
          have hg : g = l := by simpa using hi
          subst hg
          have h : g ≠ s := by
            intro hgs
            apply hne
            simp [hgs]
          simp only [scan, h, if_false] at hw ⊢
          cases hidx : indexOf sec g with
          | none =>
            rw [hidx] at hw
            have h0 := indexOf_none sec g hidx
            exact absurd (by simpa using hw) (scan_not_wrong g gs ss sec j h0 hj1)
          | some k => simp
        | succ i =>
          have hi1 : gs[i]? = some l := by simpa using hi
          have hne1 : ss[i]? ≠ some l := by simpa using hne
          have hij1 : i < j := by omega
          by_cases h : g = s
          · simp only [scan, h, if_true, List.getElem?_cons_succ] at hw ⊢
            exact ih ss sec i j hij1 hi1 hj1 hne1 hw
          · simp only [scan, h, if_false] at hw ⊢
            cases hidx : indexOf sec g with
            | none =>
              rw [hidx] at hw
              simp only [List.getElem?_cons_succ] at hw ⊢
              exact ih ss sec i j hij1 hi1 hj1 hne1 hw
            | some k =>
              rw [hidx] at hw
              simp only [List.getElem?_cons_succ] at hw ⊢
              exact ih ss (sec.set k none) i j hij1 hi1 hj1 hne1 hw

theorem scan_self (S : Word) :
    ∀ sec : List Slot, scan S S sec = List.replicate S.length (some Mark.right) := by
  induction S with
  | nil => intro sec; simp [scan]
  | cons s ss ih => intro sec; simp [scan, ih, List.replicate_succ]

/-- Claim C1. Letter-count law: for a guess `G` and a secret `S` of five letters and every
letter `l`, the number of positions of `computeGuessResult G S` holding `l` in `G` and marked
`right` or `wrong` is at most the number of occurrences of `l` in `S` and at most the number
of occurrences of `l` in `G`. -/
theorem C1_letter_count_law (G S : Word) (l : Char) (hG : G.length = 5) (hS : S.length = 5) :
    markedCount l G (computeGuessResult G S) ≤ S.count l ∧
      markedCount l G (computeGuessResult G S) ≤ G.count l := by
  rw [markedCount_eq_min l G S hG hS]
  exact ⟨Nat.min_le_right _ _, Nat.min_le_left _ _⟩

theorem C1_letter_count_law_witness :
    markedCount 'e' ['e', 'a', 'g', 'l', 'e']
        (computeGuessResult ['e', 'a', 'g', 'l', 'e'] ['a', 'l', 'l', 'e', 'y']) ≤
        List.count 'e' ['a', 'l', 'l', 'e', 'y'] ∧
      markedCount 'e' ['e', 'a', 'g', 'l', 'e']
        (computeGuessResult ['e', 'a', 'g', 'l', 'e'] ['a', 'l', 'l', 'e', 'y']) ≤
        List.count 'e' ['e', 'a', 'g', 'l', 'e'] :=
  C1_letter_count_law ['e', 'a', 'g', 'l', 'e'] ['a', 'l', 'l', 'e', 'y'] 'e'
    (by decide) (by decide)

/-- Claim C2. For a guess `G` and a secret `S` of five letters and every position `i` in
0..4, the mark of `computeGuessResult G S` at `i` is `right` exactly when `G[i] = S[i]`; and
`computeGuessResult S S` is five `right` marks. -/
theorem C2_right_iff_exact_match (G S : Word) (hG : G.length = 5) (hS : S.length = 5) :
    (∀ i, i < 5 →
        ((computeGuessResult G S)[i]? = some (some Mark.right) ↔ G[i]? = S[i]?)) ∧
      computeGuessResult S S = List.replicate 5 (some Mark.right) := by
  refine ⟨fun i hi => ?_, ?_⟩
  · rw [computeGuessResult_eq_scan G S hG hS]
    exact scan_right_iff G S _ i (by omega) (by omega)
  · rw [computeGuessResult_eq_scan S S hS hS, scan_self, hS]

theorem C2_right_iff_exact_match_witness :
    (∀ i, i < 5 →
        ((computeGuessResult ['e', 'a', 'g', 'l', 'e'] ['a', 'l', 'l', 'e', 'e'])[i]? =
            some (some Mark.right) ↔
          ['e', 'a', 'g', 'l', 'e'][i]? = ['a', 'l', 'l', 'e', 'e'][i]?)) ∧
      computeGuessResult ['a', 'l', 'l', 'e', 'e'] ['a', 'l', 'l', 'e', 'e'] =
        List.replicate 5 (some Mark.right) :=
  C2_right_iff_exact_match ['e', 'a', 'g', 'l', 'e'] ['a', 'l', 'l', 'e', 'e']
    (by decide) (by decide)

/-- Claim C10. For a guess `G` and a secret `S` of five letters and every letter `l`, the
number of positions holding `l` in `G` and marked `right` or `wrong` is exactly the minimum
of the occurrences of `l` in `G` and in `S`; every position that is not an exact match is
marked `wrong` or `empty`; and among the occurrences of `l` that are not exact matches the
`wrong` marks go to the leftmost ones: a `wrong` mark at `j` forces `wrong` at every earlier
such `i`. -/
theorem C10_exact_count_and_leftmost (G S : Word) (l : Char)
    (hG : G.length = 5) (hS : S.length = 5) :
    markedCount l G (computeGuessResult G S) = min (G.count l) (S.count l) ∧
      (∀ i, i < 5 → G[i]? ≠ S[i]? →
        (computeGuessResult G S)[i]? = some (some Mark.wrong) ∨
          (computeGuessResult G S)[i]? = some (some Mark.empty)) ∧
      (∀ i j, i < j → j < 5 → G[i]? = some l → G[j]? = some l → S[i]? ≠ some l →
        (computeGuessResult G S)[j]? = some (some Mark.wrong) →
        (computeGuessResult G S)[i]? = some (some Mark.wrong)) := by
  refine ⟨markedCount_eq_min l G S hG hS, fun i hi hne => ?_, fun i j hij _ hi hj hne hw => ?_⟩
  · rw [computeGuessResult_eq_scan G S hG hS]
    exact scan_wrong_or_empty G S _ i (by omega) (by omega) hne
  · rw [computeGuessResult_eq_scan G S hG hS] at hw ⊢
    exact scan_leftmost l G S _ i j hij hi hj hne hw

theorem C10_exact_count_and_leftmost_witness :
    markedCount 'e' ['e', 'e', 'r', 'i', 'e']
        (computeGuessResult ['e', 'e', 'r', 'i', 'e'] ['a', 'l', 'l', 'e', 'y']) =
        min (List.count 'e' ['e', 'e', 'r', 'i', 'e']) (List.count 'e' ['a', 'l', 'l', 'e', 'y']) ∧
      (∀ i, i < 5 → ['e', 'e', 'r', 'i', 'e'][i]? ≠ ['a', 'l', 'l', 'e', 'y'][i]? →
        (computeGuessResult ['e', 'e', 'r', 'i', 'e'] ['a', 'l', 'l', 'e', 'y'])[i]? =
            some (some Mark.wrong) ∨
          (computeGuessResult ['e', 'e', 'r', 'i', 'e'] ['a', 'l', 'l', 'e', 'y'])[i]? =
            some (some Mark.empty)) ∧
      (∀ i j, i < j → j < 5 → ['e', 'e', 'r', 'i', 'e'][i]? = some 'e' →
        ['e', 'e', 'r', 'i', 'e'][j]? = some 'e' → ['a', 'l', 'l', 'e', 'y'][i]? ≠ some 'e' →
        (computeGuessResult ['e', 'e', 'r', 'i', 'e'] ['a', 'l', 'l', 'e', 'y'])[j]? =
            some (some Mark.wrong) →
        (computeGuessResult ['e', 'e', 'r', 'i', 'e'] ['a', 'l', 'l', 'e', 'y'])[i]? =
            some (some Mark.wrong)) :=
  C10_exact_count_and_leftmost ['e', 'e', 'r', 'i', 'e'] ['a', 'l', 'l', 'e', 'y'] 'e'
    (by decide) (by decide)

/-- The duplicate-letter example: guess "eagle" against the secret "allee". -/
theorem computeGuessResult_eagle_allee :
    computeGuessResult ['e', 'a', 'g', 'l', 'e'] ['a', 'l', 'l', 'e', 'e'] =
      [some Mark.wrong, some Mark.wrong, some Mark.empty, some Mark.wrong, some Mark.right] := by
  decide

/-! ### The turn state machine -/

/-- Claim C4. In a state with `currentCol = 5` whose current row spells a word that
`isWordValid` rejects, handling "enter" changes nothing: the grid, `currentRow`,
`currentCol`, `hintsUsed`, `isGameOver` and the secret are as before, the stats record is
not updated and no reveal is started. -/
theorem C4_invalid_word_rejected (dict : List Word) (sys : Sys) (word : Word)
    (_hcol : sys.state.currentCol = 5) (hword : getCurrentWord sys.state = some word)
    (hbad : isWordValid dict word = false) :
    handleInput dict ['e', 'n', 't', 'e', 'r'] sys = sys := by
  unfold handleInput
  simp [hword, hbad]

theorem C4_invalid_word_rejected_witness :
    handleInput [['a', 'p', 'p', 'l', 'e']] ['e', 'n', 't', 'e', 'r']
        { state :=
            { secret := some ['a', 'p', 'p', 'l', 'e']
              grid := [[['q'], ['w'], ['e'], ['r'], ['t']]]
              currentRow := 0, currentCol := 5, hintsUsed := 0, isGameOver := false }
          stats := defaultStats, pending := [], statsCalls := 0 } =
      { state :=
          { secret := some ['a', 'p', 'p', 'l', 'e']
            grid := [[['q'], ['w'], ['e'], ['r'], ['t']]]
            currentRow := 0, currentCol := 5, hintsUsed := 0, isGameOver := false }
        stats := defaultStats, pending := [], statsCalls := 0 } :=
  C4_invalid_word_rejected [['a', 'p', 'p', 'l', 'e']] _ ['q', 'w', 'e', 'r', 't']
    (by decide) (by decide) (by decide)

/-- Claim C3. In a state that is not game over, has `currentCol = 5` and whose current row
spells a word accepted by `isWordValid`, handling "enter" and letting its reveal complete,
with nothing in between, gives: if the word is the secret, `isGameOver = true` and a win is
recorded; otherwise if `currentRow = 5`, `isGameOver = true` and a loss is recorded;
otherwise `currentRow` is one more, `currentCol = 0` and `isGameOver` stays false. In all
three cases the grid is unchanged. -/
theorem C3_accepted_submission (dict : List Word) (sys : Sys) (word secret : Word)
    (hover : sys.state.isGameOver = false) (hcol : sys.state.currentCol = 5)
    (hword : getCurrentWord sys.state = some word) (hvalid : isWordValid dict word = true)
    (hsecret : sys.state.secret = some secret) (hpend : sys.pending = []) :
    (word = secret →
        (fireReveal (handleInput dict ['e', 'n', 't', 'e', 'r'] sys)).state.isGameOver = true ∧
        (fireReveal (handleInput dict ['e', 'n', 't', 'e', 'r'] sys)).stats =
          updateStats sys.stats sys.state.currentRow true) ∧
      (word ≠ secret → sys.state.currentRow = 5 →
        (fireReveal (handleInput dict ['e', 'n', 't', 'e', 'r'] sys)).state.isGameOver = true ∧
        (fireReveal (handleInput dict ['e', 'n', 't', 'e', 'r'] sys)).stats =
          updateStats sys.stats sys.state.currentRow false) ∧
      (word ≠ secret → sys.state.currentRow ≠ 5 →
        (fireReveal (handleInput dict ['e', 'n', 't', 'e', 'r'] sys)).state.currentRow =
          sys.state.currentRow + 1 ∧
        (fireReveal (handleInput dict ['e', 'n', 't', 'e', 'r'] sys)).state.currentCol = 0 ∧
        (fireReveal (handleInput dict ['e', 'n', 't', 'e', 'r'] sys)).state.isGameOver = false) ∧
      (fireReveal (handleInput dict ['e', 'n', 't', 'e', 'r'] sys)).state.grid =
        sys.state.grid := by
  have hh : handleInput dict ['e', 'n', 't', 'e', 'r'] sys =
      { sys with
        pending := [{ guess := word, results := computeGuessResult word secret
                      isWinner := decide (secret = word)
                      isGameOverOnThisTurn := decide (sys.state.currentRow = 5) }] } := by
    unfold handleInput submitGuess revealWord
    simp [hover, hcol, hword, hvalid, hsecret, hpend]
  rw [hh]
  by_cases hw : word = secret
  · subst hw
    simp [fireReveal, revealTimeout, submitGuessResume]
  · have hw' : ¬ secret = word := fun h => hw h.symm
    by_cases hr : sys.state.currentRow = 5
    · simp [fireReveal, revealTimeout, submitGuessResume, hw, hw', hr]
    · simp [fireReveal, revealTimeout, submitGuessResume, hw, hw', hr, hover]

theorem C3_accepted_submission_witness :
    (fireReveal (handleInput sampleDict ['e', 'n', 't', 'e', 'r'] sampleSys)).state.currentRow =
        1 ∧
      (fireReveal (handleInput sampleDict ['e', 'n', 't', 'e', 'r'] sampleSys)).state.currentCol =
        0 ∧
      (fireReveal (handleInput sampleDict ['e', 'n', 't', 'e', 'r'] sampleSys)).state.isGameOver =
        false ∧
      (fireReveal (handleInput sampleDict ['e', 'n', 't', 'e', 'r'] sampleSys)).state.grid =
        sampleSys.state.grid :=
  have h := C3_accepted_submission sampleDict sampleSys ['a', 'p', 'p', 'l', 'e']
    ['m', 'a', 'n', 'g', 'o'] (by decide) (by decide) (by decide) (by decide) (by decide)
    (by decide)
  ⟨(h.2.2.1 (by decide) (by decide)).1, (h.2.2.1 (by decide) (by decide)).2.1,
    (h.2.2.1 (by decide) (by decide)).2.2, h.2.2.2⟩

/-! ### Statistics -/

theorem distributionSum_eq (s : Stats) :
    distributionSum s =
      s.guessDistribution 1 + s.guessDistribution 2 + s.guessDistribution 3 +
        s.guessDistribution 4 + s.guessDistribution 5 + s.guessDistribution 6 := by
  simp [distributionSum, List.range_succ, List.range_zero]
  omega

theorem jsIncr_exact (x : Nat) (h : x < 2 ^ 53) : jsIncr x = x + 1 := by
  unfold jsIncr
  rw [if_pos h]

theorem updateStats_win (s : Stats) (currentRow : Nat) :
    updateStats s currentRow true =
      { gamesPlayed := jsIncr s.gamesPlayed, wins := jsIncr s.wins
        currentStreak := jsIncr s.currentStreak
        maxStreak := max s.maxStreak (jsIncr s.currentStreak)
        guessDistribution := fun k =>
          if k = currentRow + 1 then jsIncr (s.guessDistribution k)
          else s.guessDistribution k } := by
  by_cases h : jsIncr s.currentStreak > s.maxStreak
  · have hm : max s.maxStreak (jsIncr s.currentStreak) = jsIncr s.currentStreak := by omega
    simp [updateStats, h, hm]
  · have hm : max s.maxStreak (jsIncr s.currentStreak) = s.maxStreak := by omega
    simp [updateStats, h, hm]

theorem updateStats_loss (s : Stats) (currentRow : Nat) :
    updateStats s currentRow false =
      { s with gamesPlayed := jsIncr s.gamesPlayed, currentStreak := 0 } := by
  simp [updateStats]

/-- Claim C6, as the code has it. The predicate "wins ≤ gamesPlayed, currentStreak ≤
maxStreak, sum of guessDistribution[1..6] ≤ wins" holds for the zeroed default record and is
kept by every `updateStats` call made with `state.currentRow` in 0..5 on a record whose
`gamesPlayed` is below 2^53. On such a record a win adds 1 to `gamesPlayed`, `wins` and
`guessDistribution[currentRow+1]` and leaves the other keys of the distribution as they
are; when `currentStreak` is below 2^53 too it adds 1 to `currentStreak` and raises
`maxStreak` to the new `currentStreak` when that is larger. A loss adds 1 to `gamesPlayed`,
sets `currentStreak` to 0 and leaves `wins`, `maxStreak` and `guessDistribution`
unchanged. -/
theorem C6_stats_invariant_below_2_53 (s : Stats) (currentRow : Nat) (hrow : currentRow ≤ 5)
    (hinv : StatsInv s) (hgp : s.gamesPlayed < 2 ^ 53) :
    StatsInv defaultStats ∧
      StatsInv (updateStats s currentRow true) ∧ StatsInv (updateStats s currentRow false) ∧
      ((updateStats s currentRow true).gamesPlayed = s.gamesPlayed + 1 ∧
        (updateStats s currentRow true).wins = s.wins + 1 ∧
        (updateStats s currentRow true).guessDistribution (currentRow + 1) =
          s.guessDistribution (currentRow + 1) + 1 ∧
        (∀ k, k ≠ currentRow + 1 →
          (updateStats s currentRow true).guessDistribution k = s.guessDistribution k) ∧
        (s.currentStreak < 2 ^ 53 →
          (updateStats s currentRow true).currentStreak = s.currentStreak + 1 ∧
          (updateStats s currentRow true).maxStreak =
            max s.maxStreak (s.currentStreak + 1))) ∧
      ((updateStats s currentRow false).gamesPlayed = s.gamesPlayed + 1 ∧
        (updateStats s currentRow false).currentStreak = 0 ∧
        (updateStats s currentRow false).wins = s.wins ∧
        (updateStats s currentRow false).maxStreak = s.maxStreak ∧
        (updateStats s currentRow false).guessDistribution = s.guessDistribution) := by
  obtain ⟨h1, h2, h3⟩ := hinv
  rw [distributionSum_eq] at h3
  have hw : s.wins < 2 ^ 53 := by omega
  have hd : ∀ k, 1 ≤ k → k ≤ 6 → s.guessDistribution k < 2 ^ 53 := by
    intro k hk1 hk6
    interval_cases k <;> omega
  have hgp' := jsIncr_exact s.gamesPlayed hgp
  have hw' := jsIncr_exact s.wins hw
  have hdk := jsIncr_exact (s.guessDistribution (currentRow + 1))
    (hd (currentRow + 1) (by omega) (by omega))
  rw [updateStats_win, updateStats_loss]
  refine ⟨?_, ⟨?_, ?_, ?_⟩, ⟨?_, ?_, ?_⟩, ?_, ?_⟩
  · simp [StatsInv, distributionSum_eq, defaultStats]
  · show jsIncr s.wins ≤ jsIncr s.gamesPlayed
    omega
  · show jsIncr s.currentStreak ≤ max s.maxStreak (jsIncr s.currentStreak)
    omega
  · rw [distributionSum_eq]
    simp only []
    rw [hw']
    interval_cases currentRow <;> simp at hdk ⊢ <;> omega
  · show s.wins ≤ jsIncr s.gamesPlayed
    omega
  · show 0 ≤ s.maxStreak
    omega
  · rw [distributionSum_eq]
    exact h3
  · refine ⟨hgp', hw', ?_, ?_, ?_⟩
    · simp [hdk]
    · intro k hk
      simp [hk]
    · intro hcs
      have hcs' := jsIncr_exact s.currentStreak hcs
      exact ⟨hcs', by show max s.maxStreak (jsIncr s.currentStreak) = _; rw [hcs']⟩
  · exact ⟨hgp', rfl, rfl, rfl, rfl⟩

theorem C6_stats_invariant_below_2_53_witness :
    StatsInv defaultStats ∧
      StatsInv (updateStats defaultStats 2 true) ∧ StatsInv (updateStats defaultStats 2 false) ∧
      ((updateStats defaultStats 2 true).gamesPlayed = defaultStats.gamesPlayed + 1 ∧
        (updateStats defaultStats 2 true).wins = defaultStats.wins + 1 ∧
        (updateStats defaultStats 2 true).guessDistribution (2 + 1) =
          defaultStats.guessDistribution (2 + 1) + 1 ∧
        (∀ k, k ≠ 2 + 1 →
          (updateStats defaultStats 2 true).guessDistribution k =
            defaultStats.guessDistribution k) ∧
        (defaultStats.currentStreak < 2 ^ 53 →
          (updateStats defaultStats 2 true).currentStreak = defaultStats.currentStreak + 1 ∧
          (updateStats defaultStats 2 true).maxStreak =
            max defaultStats.maxStreak (defaultStats.currentStreak + 1))) ∧
      ((updateStats defaultStats 2 false).gamesPlayed = defaultStats.gamesPlayed + 1 ∧
        (updateStats defaultStats 2 false).currentStreak = 0 ∧
        (updateStats defaultStats 2 false).wins = defaultStats.wins ∧
        (updateStats defaultStats 2 false).maxStreak = defaultStats.maxStreak ∧
        (updateStats defaultStats 2 false).guessDistribution =
          defaultStats.guessDistribution) :=
  C6_stats_invariant_below_2_53 defaultStats 2 (by decide)
    ⟨Nat.le_refl 0, Nat.le_refl 0, by simp [distributionSum_eq, defaultStats]⟩ (by decide)

/-- Claim C6 fails as stated. Take the record with `gamesPlayed = wins = 2^53`, both streaks
0 and `guessDistribution[1] = guessDistribution[2] = 2^52`; it satisfies the predicate. A win
on row 0 leaves `gamesPlayed` and `wins` at 2^53 (the double `2^53 + 1` does not exist) and
raises `guessDistribution[1]` to `2^52 + 1`, so the sum of the distribution is `2^53 + 1` and
exceeds `wins`. -/
theorem C6_saturated_counters :
    StatsInv saturatedStats ∧
      (updateStats saturatedStats 0 true).gamesPlayed = saturatedStats.gamesPlayed ∧
      (updateStats saturatedStats 0 true).wins = saturatedStats.wins ∧
      ¬ StatsInv (updateStats saturatedStats 0 true) := by
  refine ⟨?_, ?_, ?_, ?_⟩
  · refine ⟨?_, ?_, ?_⟩
    · decide
    · decide
    · rw [distributionSum_eq]
      decide
  · rw [updateStats_win]
    decide
  · rw [updateStats_win]
    decide
  · rintro ⟨_, _, h⟩
    rw [distributionSum_eq, updateStats_win] at h
    revert h
    decide

/-! ### The word list -/

theorem pickSecret_iff_mem (dict : List Word) (w : Word) :
    (∃ u, pickSecret dict u = some w) ↔ w ∈ dict := by
  constructor
  · rintro ⟨u, hu⟩
    exact List.getElem?_mem hu
  · intro hw
    obtain ⟨i, hi, rfl⟩ := List.getElem_of_mem hw
    refine ⟨i, ?_⟩
    simp [pickSecret, Nat.mod_eq_of_lt hi, List.getElem?_eq_getElem hi]

/-- Claim C8, as the code has it. The words accepted by `isWordValid` are exactly the words
the secret can be drawn as: every possible secret is accepted as a guess, and every accepted
guess can be chosen as the secret. -/
theorem C8_valid_set_equals_secret_list (dict : List Word) (w : Word) :
    isWordValid dict w = true ↔ ∃ u, pickSecret dict u = some w := by
  rw [pickSecret_iff_mem]
  simp [isWordValid]

/-- Claim C8 fails as stated: for the word list holding only "apple" no accepted guess is
outside the words the secret can be drawn as. -/
theorem C8_no_strict_superset :
    ¬ ∃ w, isWordValid [['a', 'p', 'p', 'l', 'e']] w = true ∧
        ¬ ∃ u, pickSecret [['a', 'p', 'p', 'l', 'e']] u = some w := by
  rintro ⟨w, hw, hn⟩
  apply hn
  rw [pickSecret_iff_mem]
  simpa [isWordValid] using hw

/-! ### Loading the statistics -/

/-- Claim C9, as the code has it. `loadStats` never throws. It returns the zeroed default
record when the storage throws, when nothing is stored, when the stored text is empty and
when the stored text is not valid JSON; for a stored text that is not empty and is valid
JSON it returns the value `JSON.parse` gives, whatever its shape. -/
theorem C9_loadStats_total (parse : Word → Option JsVal) :
    (∀ stored, ∃ v, loadStats parse stored = Except.ok v) ∧
      (∀ e, loadStats parse (Except.error e) = Except.ok defaultStats.toJs) ∧
      loadStats parse (Except.ok none) = Except.ok defaultStats.toJs ∧
      loadStats parse (Except.ok (some [])) = Except.ok defaultStats.toJs ∧
      (∀ text, parse text = none →
        loadStats parse (Except.ok (some text)) = Except.ok defaultStats.toJs) ∧
      (∀ text v, text ≠ [] → parse text = some v →
        loadStats parse (Except.ok (some text)) = Except.ok v) := by
  refine ⟨?_, ?_, ?_, ?_, ?_, ?_⟩
  · intro stored
    unfold loadStats
    simp only []
    split <;> exact ⟨_, rfl⟩
  · intro e
    rfl
  · rfl
  · simp [loadStats]
  · intro text h
    by_cases ht : text = []
    · simp [loadStats, ht]
    · simp [loadStats, ht, h]
  · intro text v ht h
    simp [loadStats, ht, h]

/-- Claim C9 fails as stated: with the text "null" stored, which is valid JSON,
`loadStats` returns `null`, and `null` is not the default record. -/
theorem C9_null_is_returned :
    loadStats jsonParseSample (Except.ok (some ['n', 'u', 'l', 'l'])) = Except.ok JsVal.null ∧
      loadStats jsonParseSample (Except.ok (some ['n', 'u', 'l', 'l'])) ≠
        Except.ok defaultStats.toJs := by
  have h : loadStats jsonParseSample (Except.ok (some ['n', 'u', 'l', 'l'])) =
      Except.ok JsVal.null := by
    simp [loadStats, jsonParseSample]
  refine ⟨h, ?_⟩
  rw [h]
  intro hc
  simp [Stats.toJs] at hc

/-! ### One stats update per session -/

/-- Claim C5 fails as stated. With the word list holding only "apple": type "apple", press
Enter twice, and let the two reveal timers fire. No restart happens. When the second Enter
is handled the first submission has decided nothing yet (the game is not over and
`updateStats` has not been called), and at the end `updateStats` has been called twice:
`gamesPlayed` is 2. -/
theorem C5_double_enter_updates_twice :
    (∀ u, Event.restart u ∉ doubleEnter) ∧
      (run [['a', 'p', 'p', 'l', 'e']] (doubleEnter.take 6)
          (startup [['a', 'p', 'p', 'l', 'e']] 0 defaultStats)).state.isGameOver = false ∧
      (run [['a', 'p', 'p', 'l', 'e']] (doubleEnter.take 6)
          (startup [['a', 'p', 'p', 'l', 'e']] 0 defaultStats)).statsCalls = 0 ∧
      (run [['a', 'p', 'p', 'l', 'e']] doubleEnter
          (startup [['a', 'p', 'p', 'l', 'e']] 0 defaultStats)).state.isGameOver = true ∧
      (run [['a', 'p', 'p', 'l', 'e']] doubleEnter
          (startup [['a', 'p', 'p', 'l', 'e']] 0 defaultStats)).statsCalls = 2 ∧
      (run [['a', 'p', 'p', 'l', 'e']] doubleEnter
          (startup [['a', 'p', 'p', 'l', 'e']] 0 defaultStats)).stats.gamesPlayed = 2 := by
  refine ⟨?_, ?_, ?_, ?_, ?_, ?_⟩
  · intro u hu
    simp [doubleEnter] at hu
  · decide
  · decide
  · decide
  · decide
  · decide

theorem addLetter_isGameOver (st : State) (k : Word) :
    (addLetter st k).isGameOver = st.isGameOver ∧
      (addLetter st k).hintsUsed = st.hintsUsed := by
  unfold addLetter
  split
  · exact ⟨rfl, rfl⟩
  · split <;> exact ⟨rfl, rfl⟩

theorem removeLetter_isGameOver (st : State) :
    (removeLetter st).isGameOver = st.isGameOver ∧
      (removeLetter st).hintsUsed = st.hintsUsed := by
  unfold removeLetter
  split
  · exact ⟨rfl, rfl⟩
  · split <;> exact ⟨rfl, rfl⟩

theorem useHint_isGameOver (u : Nat) (st : State) :
    (useHint u st).isGameOver = st.isGameOver := by
  unfold useHint
  split
  · rfl
  · split
    · simp only []
      split
      · rfl
      · split <;> rfl
    · rfl

theorem submitGuess_fields (word : Word) (sys : Sys) :
    (submitGuess word sys).state = sys.state ∧ (submitGuess word sys).stats = sys.stats ∧
      ((submitGuess word sys).pending = sys.pending ∨
        ∃ r, (submitGuess word sys).pending = sys.pending ++ [r]) ∧
      (submitGuess word sys).statsCalls = sys.statsCalls := by
  unfold submitGuess revealWord
  split
  · exact ⟨rfl, rfl, Or.inl rfl, rfl⟩
  · exact ⟨rfl, rfl, Or.inr ⟨_, rfl⟩, rfl⟩

/-- The handler `handleInput` never touches the stats nor `isGameOver` nor `hintsUsed` and
never calls `updateStats`; it adds at most one reveal, and none when the game is over. -/
theorem handleInput_fields (dict : List Word) (key : Word) (sys : Sys) :
    (handleInput dict key sys).stats = sys.stats ∧
      (handleInput dict key sys).state.isGameOver = sys.state.isGameOver ∧
      (handleInput dict key sys).state.hintsUsed = sys.state.hintsUsed ∧
      ((handleInput dict key sys).pending = sys.pending ∨
        (sys.state.isGameOver = false ∧
          ∃ r, (handleInput dict key sys).pending = sys.pending ++ [r])) ∧
      (handleInput dict key sys).statsCalls = sys.statsCalls := by
  unfold handleInput
  by_cases hover : sys.state.isGameOver = true
  · simp [hover]
  · have hover' : sys.state.isGameOver = false := by simpa using hover
    rw [if_neg hover]
    split
    · split
      · split
        · exact ⟨rfl, rfl, rfl, Or.inl rfl, rfl⟩
        · split
          · obtain ⟨h1, h2, h3, h4⟩ := submitGuess_fields ‹Word› sys
            refine ⟨h2, by rw [h1], by rw [h1], ?_, h4⟩
            rcases h3 with h3 | h3
            · exact Or.inl h3
            · exact Or.inr ⟨hover', h3⟩
          · exact ⟨rfl, rfl, rfl, Or.inl rfl, rfl⟩
      · exact ⟨rfl, rfl, rfl, Or.inl rfl, rfl⟩
    · split
      · exact ⟨rfl, (removeLetter_isGameOver sys.state).1,
          (removeLetter_isGameOver sys.state).2, Or.inl rfl, rfl⟩
      · split
        · exact ⟨rfl, (addLetter_isGameOver sys.state key).1,
            (addLetter_isGameOver sys.state key).2, Or.inl rfl, rfl⟩
        · exact ⟨rfl, rfl, rfl, Or.inl rfl, rfl⟩

theorem fireReveal_sessionInv (c0 : Nat) (stats0 : Stats) (sys : Sys)
    (h : SessionInv c0 stats0 sys) : SessionInv c0 stats0 (fireReveal sys) := by
  obtain ⟨hlen, hover, hc, hst⟩ := h
  unfold fireReveal
  cases hp : sys.pending with
  | nil => exact ⟨by simp [hp], fun hne => absurd hp hne, hc, hst⟩
  | cons r rest =>
    have hrest : rest = [] := by
      rw [hp] at hlen
      simpa using hlen
    have hover' : sys.state.isGameOver = false := hover (by simp [hp])
    have hst' := hst hover'
    simp only [hover', Bool.false_eq_true, if_false, Nat.add_zero] at hc
    subst hrest
    simp only []
    by_cases hw : r.isWinner = true
    · simp [SessionInv, revealTimeout, submitGuessResume, hw, hc]
    · by_cases ht : r.isGameOverOnThisTurn = true
      · simp [SessionInv, revealTimeout, submitGuessResume, hw, ht, hc]
      · simp [SessionInv, revealTimeout, submitGuessResume, hw, ht, hover', hc, hst']

theorem step_sessionInv (dict : List Word) (c0 : Nat) (stats0 : Stats) (sys : Sys)
    (ev : Event) (h : SessionInv c0 stats0 sys) (hone : (step dict sys ev).pending.length ≤ 1)
    (hnr : ∀ u, ev ≠ Event.restart u) : SessionInv c0 stats0 (step dict sys ev) := by
  cases ev with
  | revealDone => exact fireReveal_sessionInv c0 stats0 sys h
  | restart u => exact absurd rfl (hnr u)
  | hint u =>
    obtain ⟨hlen, hover, hc, hst⟩ := h
    refine ⟨hlen, fun hne => ?_, ?_, fun hgo => ?_⟩
    · show (useHint u sys.state).isGameOver = false
      rw [useHint_isGameOver]
      exact hover hne
    · show sys.statsCalls = c0 + if (useHint u sys.state).isGameOver = true then 1 else 0
      rw [useHint_isGameOver]
      exact hc
    · have hgo' : (useHint u sys.state).isGameOver = false := hgo
      rw [useHint_isGameOver] at hgo'
      exact hst hgo'
  | key k =>
    obtain ⟨_, hover, hc, hst⟩ := h
    obtain ⟨h1, h2, _, h4, h5⟩ := handleInput_fields dict k sys
    have hone' : (handleInput dict k sys).pending.length ≤ 1 := hone
    show SessionInv c0 stats0 (handleInput dict k sys)
    refine ⟨hone', fun hne => ?_, ?_, fun hgo => ?_⟩
    · rw [h2]
      rcases h4 with h4 | ⟨h4, _⟩
      · rw [h4] at hne
        exact hover hne
      · exact h4
    · rw [h5, h2]
      exact hc
    · rw [h1]
      rw [h2] at hgo
      exact hst hgo

theorem run_sessionInv (dict : List Word) (c0 : Nat) (stats0 : Stats) (evs : List Event) :
    ∀ sys : Sys, SessionInv c0 stats0 sys → OneRevealAtATime dict evs sys →
      (∀ u, Event.restart u ∉ evs) → SessionInv c0 stats0 (run dict evs sys) := by
  induction evs with
  | nil => intro sys h _ _; exact h
  | cons ev evs ih =>
    intro sys h hq hnr
    obtain ⟨hq1, hq2⟩ := hq
    have h1 : ∀ u, ev ≠ Event.restart u := by
      intro u hu
      exact hnr u (by simp [hu])
    have h2 : ∀ u, Event.restart u ∉ evs := by
      intro u hu
      exact hnr u (List.mem_cons_of_mem _ hu)
    exact ih (step dict sys ev) (step_sessionInv dict c0 stats0 sys ev h hq1 h1) hq2 h2

/-- Events other than Enter start no reveal: a letter, a backspace, any other key, a hint
and the completion of a reveal never add a pending reveal. -/
theorem step_pending_le (dict : List Word) (sys : Sys) (ev : Event)
    (h : ev ≠ Event.key ['e', 'n', 't', 'e', 'r']) (hnr : ∀ u, ev ≠ Event.restart u) :
    (step dict sys ev).pending.length ≤ sys.pending.length := by
  cases ev with
  | restart u => exact absurd rfl (hnr u)
  | hint u => exact Nat.le_refl _
  | revealDone =>
    show (fireReveal sys).pending.length ≤ sys.pending.length
    unfold fireReveal
    cases hp : sys.pending with
    | nil => simp [hp]
    | cons r rest =>
      simp only [submitGuessResume, revealTimeout]
      split_ifs <;> simp
  | key k =>
    have hk : k ≠ ['e', 'n', 't', 'e', 'r'] := fun hk => h (by rw [hk])
    show (handleInput dict k sys).pending.length ≤ sys.pending.length
    unfold handleInput
    rw [if_neg hk]
    split_ifs <;> exact Nat.le_refl _

/-- Claim C5, as the code has it. Take a session from its start, where the game is not over
(as `startup` and `restartGame` leave it) and at most one reveal is pending, through any
sequence of keys, hints and reveal-timer completions without a restart, such that at no
time two reveals are pending at once. Then `updateStats` has been called once in the
session if the game is over and not at all otherwise, and while the game is not over the
stats record is the one the session started with. Only an accepted Enter can start a
reveal: letters, backspaces, other keys, hints and timer completions are free to arrive
while a reveal is pending. The decision and the update are made by the reveal timer:
`handleInput` itself never changes the stats nor `isGameOver` and never calls
`updateStats`. A restart leaves the pending reveals in place. -/
theorem C5_one_update_per_session (dict : List Word) (evs : List Event) (sys : Sys)
    (hover : sys.state.isGameOver = false) (hpend : sys.pending.length ≤ 1)
    (hone : OneRevealAtATime dict evs sys) (hnr : ∀ u, Event.restart u ∉ evs) :
    (run dict evs sys).statsCalls =
        sys.statsCalls + (if (run dict evs sys).state.isGameOver then 1 else 0) ∧
      ((run dict evs sys).state.isGameOver = false → (run dict evs sys).stats = sys.stats) ∧
      (∀ s ev, ev ≠ Event.key ['e', 'n', 't', 'e', 'r'] → (∀ u, ev ≠ Event.restart u) →
        (step dict s ev).pending.length ≤ s.pending.length) ∧
      (∀ key s, (handleInput dict key s).stats = s.stats ∧
        (handleInput dict key s).state.isGameOver = s.state.isGameOver ∧
        (handleInput dict key s).statsCalls = s.statsCalls) ∧
      (∀ u s, (step dict s (Event.restart u)).pending = s.pending ∧
        (step dict s (Event.restart u)).state.isGameOver = false) := by
  have h0 : SessionInv sys.statsCalls sys.stats sys := by
    refine ⟨hpend, fun _ => hover, ?_, fun _ => rfl⟩
    simp [hover]
  have h := run_sessionInv dict _ _ evs sys h0 hone hnr
  refine ⟨h.2.2.1, h.2.2.2, fun s ev h1 h2 => step_pending_le dict s ev h1 h2, ?_, ?_⟩
  · intro key s
    exact ⟨(handleInput_fields dict key s).1, (handleInput_fields dict key s).2.1,
      (handleInput_fields dict key s).2.2.2.2⟩
  · intro u s
    exact ⟨rfl, rfl⟩

theorem C5_one_update_per_session_witness :
    (run [['a', 'p', 'p', 'l', 'e']] quietWin
          (startup [['a', 'p', 'p', 'l', 'e']] 0 defaultStats)).statsCalls =
        (startup [['a', 'p', 'p', 'l', 'e']] 0 defaultStats).statsCalls +
          (if (run [['a', 'p', 'p', 'l', 'e']] quietWin
              (startup [['a', 'p', 'p', 'l', 'e']] 0 defaultStats)).state.isGameOver
            then 1 else 0) ∧
      (run [['a', 'p', 'p', 'l', 'e']] quietWin
          (startup [['a', 'p', 'p', 'l', 'e']] 0 defaultStats)).state.isGameOver = true :=
  ⟨(C5_one_update_per_session [['a', 'p', 'p', 'l', 'e']] quietWin
      (startup [['a', 'p', 'p', 'l', 'e']] 0 defaultStats) rfl (by decide)
      ⟨by decide, by decide, by decide, by decide, by decide, by decide, by decide, by decide,
        trivial⟩
      (by intro u hu; simp [quietWin] at hu)).1, by decide⟩

/-! ### Hints -/

theorem useHint_spend (u : Nat) (st : State) (row : List Word) (secret : Word)
    (hlt : st.hintsUsed < MAX_HINTS) (hover : st.isGameOver = false)
    (hrow : st.grid[st.currentRow]? = some row) (hsecret : st.secret = some secret)
    (hne : unrevealedIndices row secret ≠ []) :
    ∃ idx, idx ∈ unrevealedIndices row secret ∧
      useHint u st =
        { st with
          grid := st.grid.set st.currentRow (row.set idx (secret[idx]?).toList)
          hintsUsed := st.hintsUsed + 1 } := by
  have hlen : 0 < (unrevealedIndices row secret).length := List.length_pos.mpr hne
  have hmod : u % (unrevealedIndices row secret).length <
      (unrevealedIndices row secret).length := Nat.mod_lt _ hlen
  refine ⟨(unrevealedIndices row secret)[u % (unrevealedIndices row secret).length],
    List.getElem_mem _, ?_⟩
  have hge : ¬ st.hintsUsed ≥ MAX_HINTS := by omega
  unfold useHint
  simp [hge, hover, hrow, hsecret, hne, List.getElem?_eq_getElem hmod]

theorem useHint_exhausted (u : Nat) (st : State) (h : MAX_HINTS ≤ st.hintsUsed) :
    useHint u st = st := by
  unfold useHint
  simp [h]

theorem unrevealed_after_set (row : List Word) (secret : Word) (idx j : Nat) (v : Word)
    (hj : j ∈ unrevealedIndices row secret) (hne : j ≠ idx) :
    j ∈ unrevealedIndices (row.set idx v) secret := by
  unfold unrevealedIndices at hj ⊢
  rw [List.mem_filter] at hj ⊢
  refine ⟨hj.1, ?_⟩
  rw [List.getElem?_set_ne (Ne.symm hne)]
  exact hj.2

theorem exists_other_unrevealed (row : List Word) (secret : Word) (idx : Nat)
    (h : 2 ≤ (unrevealedIndices row secret).length) :
    ∃ j, j ∈ unrevealedIndices row secret ∧ j ≠ idx := by
  have hnd : (unrevealedIndices row secret).Nodup :=
    List.Nodup.filter _ (List.nodup_range 5)
  match hL : unrevealedIndices row secret, h, hnd with
  | a :: b :: rest, _, hnd =>
    have hab : a ≠ b := by
      intro hab
      simp [hab] at hnd
    by_cases ha : a = idx
    · exact ⟨b, by simp, fun hb => hab (ha.trans hb.symm)⟩
    · exact ⟨a, by simp, ha⟩

theorem useHint_hintsUsed_le (u : Nat) (st : State) (h : st.hintsUsed ≤ MAX_HINTS) :
    (useHint u st).hintsUsed ≤ MAX_HINTS := by
  unfold useHint
  split
  · exact h
  · rename_i hc
    have hlt : st.hintsUsed < MAX_HINTS := by
      simp only [ge_iff_le, Bool.or_eq_true, decide_eq_true_eq, not_or, not_le] at hc
      exact hc.1
    split
    · simp only []
      split
      · exact h
      · split
        · exact h
        · exact hlt
    · exact h

theorem fireReveal_hintsUsed (sys : Sys) :
    (fireReveal sys).state.hintsUsed = sys.state.hintsUsed := by
  unfold fireReveal
  split
  · rfl
  · unfold submitGuessResume revealTimeout
    simp only []
    split_ifs <;> rfl

theorem step_hintsUsed_le (dict : List Word) (sys : Sys) (ev : Event)
    (h : sys.state.hintsUsed ≤ MAX_HINTS) : (step dict sys ev).state.hintsUsed ≤ MAX_HINTS := by
  cases ev with
  | key k =>
    show (handleInput dict k sys).state.hintsUsed ≤ MAX_HINTS
    rw [(handleInput_fields dict k sys).2.2.1]
    exact h
  | hint u => exact useHint_hintsUsed_le u sys.state h
  | restart u => exact Nat.zero_le _
  | revealDone =>
    show (fireReveal sys).state.hintsUsed ≤ MAX_HINTS
    rw [fireReveal_hintsUsed]
    exact h

theorem run_hintsUsed_le (dict : List Word) (evs : List Event) :
    ∀ sys : Sys, sys.state.hintsUsed ≤ MAX_HINTS →
      (run dict evs sys).state.hintsUsed ≤ MAX_HINTS := by
  induction evs with
  | nil => intro sys h; exact h
  | cons ev evs ih =>
    intro sys h
    exact ih (step dict sys ev) (step_hintsUsed_le dict sys ev h)

/-- Claim C7. In a state that is not game over, has `hintsUsed = 0` and whose current row
differs from the secret in at least `MAX_HINTS` positions, whatever the random draws, the
first `MAX_HINTS` calls of `useHint` each spend a hint, the call number `MAX_HINTS + 1`
changes nothing, and the remaining budget `MAX_HINTS - hintsUsed` is then 0. In every state
the program reaches from `startup`, whatever the events, `hintsUsed ≤ MAX_HINTS`, so the
budget is never negative. -/
theorem C7_hint_budget (st : State) (row : List Word) (secret : Word) (u1 u2 u3 : Nat)
    (hover : st.isGameOver = false) (hused : st.hintsUsed = 0)
    (hrow : st.grid[st.currentRow]? = some row) (hsecret : st.secret = some secret)
    (hdiff : MAX_HINTS ≤ (unrevealedIndices row secret).length)
    (dict : List Word) (u0 : Nat) (stats : Stats) (evs : List Event) :
    (useHint u1 st).hintsUsed = 1 ∧
      (useHint u2 (useHint u1 st)).hintsUsed = MAX_HINTS ∧
      useHint u3 (useHint u2 (useHint u1 st)) = useHint u2 (useHint u1 st) ∧
      MAX_HINTS - (useHint u3 (useHint u2 (useHint u1 st))).hintsUsed = 0 ∧
      (run dict evs (startup dict u0 stats)).state.hintsUsed ≤ MAX_HINTS := by
  have hdiff2 : 2 ≤ (unrevealedIndices row secret).length := hdiff
  have hne : unrevealedIndices row secret ≠ [] := by
    intro hnil
    rw [hnil] at hdiff2
    simp at hdiff2
  obtain ⟨idx, _, h1⟩ := useHint_spend u1 st row secret (by rw [hused]; decide) hover hrow
    hsecret hne
  obtain ⟨j, hj, hjne⟩ := exists_other_unrevealed row secret idx hdiff2
  have hj' := unrevealed_after_set row secret idx j (secret[idx]?).toList hj hjne
  have hrowlt : st.currentRow < st.grid.length := by
    rcases List.getElem?_eq_some.mp hrow with ⟨hlt, _⟩
    exact hlt
  have hused1 : (useHint u1 st).hintsUsed = 1 := by rw [h1]; simp [hused]
  obtain ⟨idx2, _, h2⟩ := useHint_spend u2 (useHint u1 st)
    (row.set idx (secret[idx]?).toList) secret
    (by rw [hused1]; decide) (by rw [useHint_isGameOver]; exact hover)
    (by rw [h1]; simp [hrowlt]) (by rw [h1]; exact hsecret) (List.ne_nil_of_mem hj')
  have hused2 : (useHint u2 (useHint u1 st)).hintsUsed = MAX_HINTS := by
    rw [h2]
    simp [hused1, MAX_HINTS]
  have h3 : useHint u3 (useHint u2 (useHint u1 st)) = useHint u2 (useHint u1 st) :=
    useHint_exhausted u3 _ (by rw [hused2])
  refine ⟨hused1, hused2, h3, ?_, ?_⟩
  · rw [h3, hused2]
    exact Nat.sub_self _
  · exact run_hintsUsed_le dict evs _ (Nat.zero_le _)

theorem C7_hint_budget_witness :
    (useHint 0 (initialState sampleDict 1)).hintsUsed = 1 ∧
      (useHint 7 (useHint 0 (initialState sampleDict 1))).hintsUsed = MAX_HINTS ∧
      useHint 3 (useHint 7 (useHint 0 (initialState sampleDict 1))) =
        useHint 7 (useHint 0 (initialState sampleDict 1)) ∧
      MAX_HINTS - (useHint 3 (useHint 7 (useHint 0 (initialState sampleDict 1)))).hintsUsed =
        0 ∧
      (run sampleDict [Event.hint 0, Event.hint 1, Event.hint 2, Event.restart 0, Event.hint 4]
          (startup sampleDict 1 defaultStats)).state.hintsUsed ≤ MAX_HINTS :=
  C7_hint_budget (initialState sampleDict 1) (List.replicate 5 []) ['m', 'a', 'n', 'g', 'o']
    0 7 3 (by decide) (by decide) (by decide) (by decide) (by decide)
    sampleDict 1 defaultStats
    [Event.hint 0, Event.hint 1, Event.hint 2, Event.restart 0, Event.hint 4]

end Wordle
